import Mathlib

/-!
Sektron terminal UI: key map, input dispatcher and step cell rendering.

A shallow embedding of `src/ui/keymap.go`, `src/ui/ui.go` and `src/ui/step.go`.

* Go `int` values are `Int`; `/` and `%` are the truncating `Int.tdiv` and `Int.tmod`.
  The 64-bit range is not modelled: the statements below only involve cursors, counts and
  terminal sizes, whose arithmetic stays far inside it.
* A Go `map[string]int` is an association list with Go's read semantics
  (a missing key reads as the zero value).
* A run-time panic (index out of range, division by zero) is `none`.
* The sequencer engine lives in another package; it is modelled as explicit state
  together with the list of the calls it has received.
-/

namespace Sektron

/-! ## keymap.go -/

/-- A Go `map[string]int`. -/
abbrev GoMap := List (String × Int)

/-- The assignment `m[k] = v`: overwrite the entry of `k` or add one. -/
def GoMap.put : GoMap → String → Int → GoMap
  | [], k, v => [(k, v)]
  | (k0, v0) :: rest, k, v =>
    if k0 = k then (k, v) :: rest else (k0, v0) :: GoMap.put rest k v

/-- The read `m[k]`: the stored value, or the zero value when `k` is absent. -/
def GoMap.get (m : GoMap) (k : String) : Int :=
  match m.lookup k with
  | some v => v
  | none => 0

/-- The keys of a `GoMap`. -/
def GoMap.keys (m : GoMap) : List String := m.map Prod.fst

def stepSelectKeys : List String :=
  ["a", "z", "e", "r", "t", "y", "u", "i", "q", "s", "d", "f", "g", "h", "j", "k"]

def stepToggleKeys : List String :=
  ["A", "Z", "E", "R", "T", "Y", "U", "I", "Q", "S", "D", "F", "G", "H", "J", "K"]

def trackSelectKeys : List String :=
  ["&", "é", "\x22", "\x27", "(", "-", "è", "_", "ç", "à"]

def trackToggleKeys : List String :=
  ["1", "2", "3", "4", "5", "6", "7", "8", "9", "0"]

/-- A `key.Binding`: the key chords that trigger it and its help entry. -/
structure Binding where
  keys : List String
  helpKey : String
  helpDesc : String
deriving DecidableEq, Repr

/-- The call `key.NewBinding(key.WithKeys(ks...), key.WithHelp(k, d))`. -/
def NewBinding (ks : List String) (k d : String) : Binding :=
  { keys := ks, helpKey := k, helpDesc := d }

/-- The call `key.Matches(msg, b)`: the chord of the message is one of the binding's keys. -/
def Matches (msg : String) (b : Binding) : Bool := b.keys.contains msg

structure keyMap where
  TogglePlay : Binding
  Mode : Binding
  Add : Binding
  Remove : Binding
  StepSelectIndex : GoMap
  StepSelect : Binding
  StepToggleIndex : GoMap
  StepToggle : Binding
  TrackSelectIndex : GoMap
  TrackSelect : Binding
  TrackToggleIndex : GoMap
  TrackToggle : Binding
  TrackPageUp : Binding
  TrackPageDown : Binding
  TempoUp : Binding
  TempoDown : Binding
  TempoFineUp : Binding
  TempoFineDown : Binding
  ParamSelectLeft : Binding
  ParamSelectRight : Binding
  ParamValueUp : Binding
  ParamValueDown : Binding
  Help : Binding
  Quit : Binding
deriving DecidableEq, Repr

/-- The loop `for i, k := range keys { index[k] = i }` run on the map `index`. -/
def rangeIndex (index : GoMap) (keys : List String) : GoMap :=
  keys.enum.foldl (fun m ik => m.put ik.2 (ik.1 : Int)) index

/-- DefaultKeyMap returns the default key mapping. -/
def DefaultKeyMap : keyMap :=
  let km : keyMap :=
    { TogglePlay := NewBinding [" "] "space" "toggle play"
      Mode := NewBinding ["tab"] "tab" "toggle mode (track, record)"
      Add := NewBinding ["="] "=" "add track|step"
      Remove := NewBinding [")"] ")" "remove track|step"
      StepSelectIndex := []
      StepSelect := NewBinding stepSelectKeys
        (String.intercalate "/" stepSelectKeys) "select track|step 1 to 16"
      StepToggleIndex := []
      StepToggle := NewBinding stepToggleKeys
        (String.intercalate "/" stepToggleKeys) "toggle track|step 1 to 16"
      TrackSelectIndex := []
      TrackSelect := NewBinding trackSelectKeys
        (String.intercalate "/" trackSelectKeys) "select track 1 to 10"
      TrackToggleIndex := []
      TrackToggle := NewBinding trackToggleKeys
        (String.intercalate "/" trackToggleKeys) "select track 1 to 10"
      TrackPageUp := NewBinding ["p"] "p" "track page up"
      TrackPageDown := NewBinding ["m"] "m" "track page down"
      TempoUp := NewBinding ["pgup"] "page up" "tempo up (1 bpm)"
      TempoDown := NewBinding ["pgdown"] "page down" "tempo down (1 bpm)"
      TempoFineUp := NewBinding ["alt+pgup"] "alt+page up" "tempo up (0.1 bpm)"
      TempoFineDown := NewBinding ["alt+pgdown"] "alt+page down" "tempo down (0.1 bpm)"
      ParamSelectLeft := NewBinding ["left"] "←" "parameter select left"
      ParamSelectRight := NewBinding ["right"] "→" "parameter select left"
      ParamValueUp := NewBinding ["up"] "↑" "increase selected parameter value"
      ParamValueDown := NewBinding ["down"] "↓" "decrease selected parameter value"
      Help := NewBinding ["?"] "?" "toggle help"
      Quit := NewBinding ["ctrl+c", "esc"] "ctrl+c/esc" "quit" }
  let km := { km with StepSelectIndex := rangeIndex km.StepSelectIndex stepSelectKeys }
  let km := { km with StepToggleIndex := rangeIndex km.StepToggleIndex stepToggleKeys }
  let km := { km with TrackSelectIndex := rangeIndex km.TrackSelectIndex trackSelectKeys }
  let km := { km with TrackToggleIndex := rangeIndex km.TrackToggleIndex trackToggleKeys }
  km

/-! ## The sequencer engine (package `sektron/sequencer`) -/

/-- Modelled from the spec: a Step of the sequencer package, which lives in another package. Only the active flag, the is-current-step flag of the transport cursor and
the velocity (0 to 127) are kept. -/
structure Step where
  active : Bool
  current : Bool
  velocity : Nat
deriving DecidableEq, Repr

/-- Modelled from the spec: a Track of the sequencer package: an ordered sequence of steps
with an independent mute/active flag. -/
structure Track where
  steps : List Step
  active : Bool
deriving DecidableEq, Repr

/-- The requests the user interface sends to the engine, in the vocabulary of the
Sequencer interface; `ParamUpdate` is the `update(track, delta)` of a parameter.
`SetTempo` carries the requested tempo in tenths of a beat per minute. -/
inductive Call where
  | TogglePlay
  | Reset
  | SetTempo (tenths : Int)
  | AddTrack
  | RemoveTrack
  | ToggleTrack (track : Int)
  | AddStep (track : Int)
  | RemoveStep (track : Int)
  | ToggleStep (track step : Int)
  | ParamUpdate (name : String) (track delta : Int)
deriving DecidableEq, Repr

/-- Modelled from the spec: the Sequencer interface of the sequencer package, which lives in
another package. The engine owns the tracks, the transport flag and the tempo
(kept in tenths of a beat per minute, the floating point arithmetic is not modelled);
`calls` records every request received, oldest first. -/
structure Sequencer where
  tracks : List Track
  playing : Bool
  tempo : Int
  calls : List Call
deriving DecidableEq, Repr

/-- Apply `f` to the element at index `i`, leaving the list alone when `i` is out of range. -/
def modifyAt {α : Type} (f : α → α) : List α → Nat → List α
  | [], _ => []
  | x :: xs, 0 => f x :: xs
  | x :: xs, n + 1 => x :: modifyAt f xs n

/-- The same with a Go `int` index. -/
def modifyAtInt {α : Type} (f : α → α) (l : List α) (i : Int) : List α :=
  if 0 ≤ i then modifyAt f l i.toNat else l

/-- Flip the active flag of a step. -/
def Step.toggle (st : Step) : Step := { st with active := !st.active }

/-- The step the engine appends on AddStep. -/
def newStep : Step := { active := false, current := false, velocity := 100 }

/-- The track the engine appends on AddTrack. -/
def newTrack : Track := { steps := [newStep], active := true }

namespace Sequencer

def record (s : Sequencer) (c : Call) : Sequencer := { s with calls := s.calls ++ [c] }

def IsPlaying (s : Sequencer) : Bool := s.playing

def Tempo (s : Sequencer) : Int := s.tempo

def Tracks (s : Sequencer) : List Track := s.tracks

/-- Modelled from the spec: TogglePlay starts or halts playback. -/
def TogglePlay (s : Sequencer) : Sequencer :=
  { s with playing := !s.playing, calls := s.calls ++ [Call.TogglePlay] }

/-- Modelled from the spec: Reset rewinds the transport, which is not part of this state. -/
def Reset (s : Sequencer) : Sequencer := s.record Call.Reset

/-- Modelled from the spec: SetTempo stores the tempo. -/
def SetTempo (s : Sequencer) (t : Int) : Sequencer :=
  { s with tempo := t, calls := s.calls ++ [Call.SetTempo t] }

/-- Modelled from the spec: AddTrack appends a track. -/
def AddTrack (s : Sequencer) : Sequencer :=
  { s with tracks := s.tracks ++ [newTrack], calls := s.calls ++ [Call.AddTrack] }

/-- Modelled from the spec: RemoveTrack removes the last track; removing below the minimum
count of one track is a safe no-op. -/
def RemoveTrack (s : Sequencer) : Sequencer :=
  { s with
    tracks := if s.tracks.length ≤ 1 then s.tracks else s.tracks.dropLast
    calls := s.calls ++ [Call.RemoveTrack] }

/-- Modelled from the spec: ToggleTrack flips the mute/active flag of a track; the engine
enforces the bounds. -/
def ToggleTrack (s : Sequencer) (track : Int) : Sequencer :=
  { s with
    tracks := modifyAtInt (fun t => { t with active := !t.active }) s.tracks track
    calls := s.calls ++ [Call.ToggleTrack track] }

/-- Modelled from the spec: AddStep appends a step to a track. -/
def AddStep (s : Sequencer) (track : Int) : Sequencer :=
  { s with
    tracks := modifyAtInt (fun t => { t with steps := t.steps ++ [newStep] }) s.tracks track
    calls := s.calls ++ [Call.AddStep track] }

/-- Modelled from the spec: RemoveStep removes the last step of a track; every track keeps
at least one step. -/
def RemoveStep (s : Sequencer) (track : Int) : Sequencer :=
  { s with
    tracks := modifyAtInt
      (fun t => { t with steps := if t.steps.length ≤ 1 then t.steps else t.steps.dropLast })
      s.tracks track
    calls := s.calls ++ [Call.RemoveStep track] }

/-- Modelled from the spec: ToggleStep flips the active flag of a step; the engine enforces
the bounds. -/
def ToggleStep (s : Sequencer) (track step : Int) : Sequencer :=
  { s with
    tracks := modifyAtInt (fun t => { t with steps := modifyAtInt Step.toggle t.steps step })
      s.tracks track
    calls := s.calls ++ [Call.ToggleStep track step] }

end Sequencer

/-- Modelled from the spec: a parameter (declared in another file of the package): a named
control whose `update(track, delta)` is a request to the engine. -/
structure parameter where
  name : String
deriving DecidableEq, Repr

def parameter.update (p : parameter) (s : Sequencer) (track delta : Int) : Sequencer :=
  s.record (Call.ParamUpdate p.name track delta)

/-- The Go index expression `l[i]` with an `int` index: `none` is the run-time panic. -/
def index {α : Type} (l : List α) (i : Int) : Option α :=
  if 0 ≤ i then l.get? i.toNat else none

/-- The Go expression `len(l)`. -/
def len {α : Type} (l : List α) : Int := (l.length : Int)

/-! ## ui.go -/

/-- The different modes of the ui. The Go type is `uint8`; the two constants below are the
only values the program ever stores in it. -/
inductive mode where
  /-- trackMode allows the user to select the tracks using the step keys. -/
  | trackMode
  /-- recMode allows the user to activate/deactivate steps using the step keys. -/
  | recMode
deriving DecidableEq, Repr

/-- The two fields of `help.Model` that the ui touches. -/
structure helpModel where
  ShowAll : Bool
  Width : Int
deriving DecidableEq, Repr

/-- The constructor `help.New()`. -/
def helpNew : helpModel := { ShowAll := false, Width := 0 }

structure mainModel where
  seq : Sequencer
  parameters : List parameter
  keymap : keyMap
  width : Int
  height : Int
  mode : mode
  activeTrack : Int
  activeTrackPage : Int
  activeParam : Int
  help : helpModel
deriving DecidableEq, Repr

/-- The members of `m.keymap` that `Update` and `stepPress` read and that the `keyMap` of
keymap.go does not declare: the select row (`Steps`), the track toggle row (`Tracks`) and
the parameter row (`Params`), each with its index table. They are parameters of the
dispatcher. -/
structure rowKeys where
  Steps : Binding
  StepsIndex : GoMap
  Tracks : Binding
  TracksIndex : GoMap
  Params : Binding
  ParamsIndex : GoMap
deriving DecidableEq, Repr

/-- New creates a new mainModel that holds the ui state. The parameter list is
`parameters(seq)`, built in another file of the package. -/
def New (params : List parameter) (seq : Sequencer) : mainModel :=
  { seq := seq
    parameters := params
    keymap := DefaultKeyMap
    width := 0
    height := 0
    mode := mode.trackMode
    activeTrack := 0
    activeTrackPage := 0
    activeParam := 0
    help := helpNew }

/-- The messages `Update` switches on; `other` is any message of another type. -/
inductive Msg where
  | WindowSizeMsg (Width Height : Int)
  | tickMsg
  | KeyMsg (key : String)
  | other
deriving DecidableEq, Repr

/-- The commands `Update` returns: `nil`, `tick()` and `tea.Quit`. -/
inductive Cmd where
  | nil
  | tick
  | Quit
deriving DecidableEq, Repr

/-- The cases of the key switch of `Update`. -/
inductive keyCase where
  | TogglePlay | Mode | Add | Remove | Steps | Tracks | TrackPageUp | TrackPageDown
  | TempoUp | TempoDown | TempoFineUp | TempoFineDown | Params | ParamValueUp
  | ParamValueDown | Help | Quit
deriving DecidableEq, Repr

/-- The case of the key switch of `Update` that handles a key: the first one, in the order
of the source, whose `key.Matches` holds; `none` when no case matches. -/
def matchCase (km : keyMap) (rk : rowKeys) (msg : String) : Option keyCase :=
  if Matches msg km.TogglePlay then some keyCase.TogglePlay
  else if Matches msg km.Mode then some keyCase.Mode
  else if Matches msg km.Add then some keyCase.Add
  else if Matches msg km.Remove then some keyCase.Remove
  else if Matches msg rk.Steps then some keyCase.Steps
  else if Matches msg rk.Tracks then some keyCase.Tracks
  else if Matches msg km.TrackPageUp then some keyCase.TrackPageUp
  else if Matches msg km.TrackPageDown then some keyCase.TrackPageDown
  else if Matches msg km.TempoUp then some keyCase.TempoUp
  else if Matches msg km.TempoDown then some keyCase.TempoDown
  else if Matches msg km.TempoFineUp then some keyCase.TempoFineUp
  else if Matches msg km.TempoFineDown then some keyCase.TempoFineDown
  else if Matches msg rk.Params then some keyCase.Params
  else if Matches msg km.ParamValueUp then some keyCase.ParamValueUp
  else if Matches msg km.ParamValueDown then some keyCase.ParamValueDown
  else if Matches msg km.Help then some keyCase.Help
  else if Matches msg km.Quit then some keyCase.Quit
  else none

/-- Modelled from the spec: the page count of a track of `stepCount` steps,
`ceil(stepCount / stepsPerPage)`, in integer arithmetic. -/
def pageCount (stepsPerPage stepCount : Int) : Int :=
  if Int.tmod stepCount stepsPerPage > 0 then Int.tdiv stepCount stepsPerPage + 1
  else Int.tdiv stepCount stepsPerPage

/-- Modelled from the spec: trackPagesNb, defined in another file of the package: the page
count of the active track, `ceil(stepCount / stepsPerPage)`. Indexing a missing track and a
zero `stepsPerPage` are run-time failures. `stepsPerPage` is a constant declared in another
file of the package and is a parameter here. -/
def trackPagesNb (stepsPerPage : Int) (m : mainModel) : Option Int :=
  match index m.seq.Tracks m.activeTrack with
  | none => none
  | some t =>
    if stepsPerPage = 0 then none
    else some (pageCount stepsPerPage (len t.steps))

def stepPress (stepsPerPage : Int) (rk : rowKeys) (m : mainModel) (msg : String) : mainModel :=
  let number := rk.StepsIndex.get msg
  match m.mode with
  | mode.trackMode =>
    if number ≥ len m.seq.Tracks then m
    else { m with activeTrack := number }
  | mode.recMode =>
    { m with seq := m.seq.ToggleStep m.activeTrack (number + m.activeTrackPage * stepsPerPage) }

def addPress (m : mainModel) : mainModel :=
  match m.mode with
  | mode.trackMode => { m with seq := m.seq.AddTrack }
  | mode.recMode => { m with seq := m.seq.AddStep m.activeTrack }

/-- The cursor adjustment that `removePress` makes in trackMode before it calls the engine. -/
def removeTrackCursor (m : mainModel) : mainModel :=
  if m.activeTrack > 0 ∧ m.activeTrack = len m.seq.Tracks - 1 then
    { m with activeTrack := m.activeTrack - 1 }
  else m

/-- The cursor adjustment that `removePress` makes in recMode before it calls the engine. -/
def removeStepCursor (remainingStepsInPage : Int) (m : mainModel) : mainModel :=
  if m.activeTrackPage > 0 ∧ remainingStepsInPage = 0 then
    { m with activeTrackPage := m.activeTrackPage - 1 }
  else m

def removePress (stepsPerPage : Int) (m : mainModel) : Option mainModel :=
  match m.mode with
  | mode.trackMode =>
    let m := removeTrackCursor m
    some { m with seq := m.seq.RemoveTrack }
  | mode.recMode =>
    match index m.seq.Tracks m.activeTrack with
    | none => none
    | some t =>
      if stepsPerPage = 0 then none
      else
        let remainingStepsInPage := Int.tmod (len t.steps - 1) stepsPerPage
        let m := removeStepCursor remainingStepsInPage m
        some { m with seq := m.seq.RemoveStep m.activeTrack }

/-- The TrackPageUp transition on the page cursor. -/
def pageUp (pageNb activeTrackPage : Int) : Int := Int.tmod (activeTrackPage + 1) pageNb

/-- The TrackPageDown transition on the page cursor. -/
def pageDown (pageNb activeTrackPage : Int) : Int :=
  if activeTrackPage - 1 < 0 then pageNb - 1 else activeTrackPage - 1

def Update (stepsPerPage : Int) (rk : rowKeys) (m : mainModel) (msg : Msg) :
    Option (mainModel × Cmd) :=
  match msg with
  | Msg.WindowSizeMsg w h =>
    some ({ m with width := w, height := h, help := { m.help with Width := w } }, Cmd.nil)
  | Msg.tickMsg => some (m, Cmd.tick)
  | Msg.KeyMsg key =>
    match matchCase m.keymap rk key with
    | some keyCase.TogglePlay => some ({ m with seq := m.seq.TogglePlay }, Cmd.nil)
    | some keyCase.Mode =>
      some (if m.mode = mode.trackMode then { m with mode := mode.recMode }
        else { m with mode := mode.trackMode }, Cmd.nil)
    | some keyCase.Add => some (addPress m, Cmd.nil)
    | some keyCase.Remove => (removePress stepsPerPage m).map (fun m1 => (m1, Cmd.nil))
    | some keyCase.Steps => some (stepPress stepsPerPage rk m key, Cmd.nil)
    | some keyCase.Tracks =>
      let number := rk.TracksIndex.get key
      some ({ m with seq := m.seq.ToggleTrack number }, Cmd.nil)
    | some keyCase.TrackPageUp =>
      (match trackPagesNb stepsPerPage m with
      | none => none
      | some pageNb =>
        if pageNb = 0 then none
        else some ({ m with activeTrackPage := pageUp pageNb m.activeTrackPage }, Cmd.nil))
    | some keyCase.TrackPageDown =>
      (match trackPagesNb stepsPerPage m with
      | none => none
      | some pageNb =>
        some ({ m with activeTrackPage := pageDown pageNb m.activeTrackPage }, Cmd.nil))
    | some keyCase.TempoUp => some ({ m with seq := m.seq.SetTempo (m.seq.Tempo + 10) }, Cmd.nil)
    | some keyCase.TempoDown => some ({ m with seq := m.seq.SetTempo (m.seq.Tempo - 10) }, Cmd.nil)
    | some keyCase.TempoFineUp => some ({ m with seq := m.seq.SetTempo (m.seq.Tempo + 1) }, Cmd.nil)
    | some keyCase.TempoFineDown =>
      some ({ m with seq := m.seq.SetTempo (m.seq.Tempo - 1) }, Cmd.nil)
    | some keyCase.Params => some ({ m with activeParam := rk.ParamsIndex.get key }, Cmd.nil)
    | some keyCase.ParamValueUp =>
      (match index m.parameters m.activeParam with
      | none => none
      | some p => some ({ m with seq := p.update m.seq m.activeTrack 1 }, Cmd.nil))
    | some keyCase.ParamValueDown =>
      (match index m.parameters m.activeParam with
      | none => none
      | some p => some ({ m with seq := p.update m.seq m.activeTrack (-1) }, Cmd.nil))
    | some keyCase.Help =>
      some ({ m with help := { m.help with ShowAll := !m.help.ShowAll } }, Cmd.nil)
    | some keyCase.Quit =>
      let m := if m.seq.IsPlaying then { m with seq := m.seq.TogglePlay } else m
      let m := { m with seq := m.seq.Reset }
      some (m, Cmd.Quit)
    | none => some (m, Cmd.nil)
  | Msg.other => some (m, Cmd.nil)

/-- Handle a list of messages one after the other, each processed to completion. -/
def run (stepsPerPage : Int) (rk : rowKeys) (m : mainModel) : List Msg → Option mainModel
  | [] => some m
  | msg :: rest =>
    match Update stepsPerPage rk m msg with
    | none => none
    | some (m1, _) => run stepsPerPage rk m1 rest

/-- The row bindings used to exercise the dispatcher on concrete keys: the select row is
the step select row of `DefaultKeyMap`, the toggle row its track toggle row, and the
parameter row is empty. -/
def defaultRows : rowKeys :=
  { Steps := DefaultKeyMap.StepSelect
    StepsIndex := DefaultKeyMap.StepSelectIndex
    Tracks := DefaultKeyMap.TrackToggle
    TracksIndex := DefaultKeyMap.TrackToggleIndex
    Params := NewBinding [] "" ""
    ParamsIndex := [] }

/-! ## step.go -/

def stepWidth : Int := 15

def stepHeight : Int := Int.tdiv stepWidth 2

/-- The cell size. `stepsPerLine` is a constant declared in another file of the package; it
is a parameter here (a nonzero one, the division is by a constant). -/
def stepSize (stepsPerLine : Int) (m : mainModel) : Int × Int :=
  let width := Int.tdiv m.width stepsPerLine - 2
  let height := Int.tdiv width 2 - 1
  if width < stepWidth ∨ height < stepHeight then (stepWidth, stepHeight)
  else (width, height)

/-- The value of `lipgloss.Height(stepStr)` in the active branch of `renderStep`, where
`stepStr` is `stepActiveStyle.Render(lipgloss.Place(width, height, Left, Top, text))`:
`Place` pads a text of `contentHeight` lines to `height` lines and returns a taller one
unchanged, and `stepActiveStyle` is `Margin(1, 0, 0, 0)`, one more line on top. -/
def activeStepStrHeight (height contentHeight : Int) : Int := max height contentHeight + 1

/-- The loop of `renderStep` that fills `velocityIndicator`, one entry per value of `i` from
1 up to `stepStrHeight - 1`; `stepStrHeight` is `lipgloss.Height(stepStr)`. -/
def velocityRows (velocity : Nat) (stepStrHeight : Int) : List String :=
  let velocityValue := Int.tdiv ((127 - (velocity : Int)) * stepStrHeight) 127
  (List.range (stepStrHeight - 1).toNat).map
    (fun (k : Nat) => if velocityValue < (k : Int) + 1 then "█" else " ")

/-- The slice `velocityIndicator` that `renderStep` builds for a step: empty for the current
step of a playing engine and for an inactive step. `contentHeight` is the number of lines of
the rendered text of the cell. -/
def velocityIndicator (stepsPerLine contentHeight : Int) (m : mainModel) (step : Step) :
    List String :=
  let height := (stepSize stepsPerLine m).2
  if m.seq.IsPlaying && step.current then []
  else if step.active then velocityRows step.velocity (activeStepStrHeight height contentHeight)
  else []

/-- The number of blank rows at the top of an indicator column. -/
def blankRows (rows : List String) : Nat := (rows.takeWhile (fun r => r == " ")).length

/-! ## Sample states -/

/-- An engine, stopped, whose tracks have the given numbers of steps. -/
def sampleSeq (stepCounts : List Nat) : Sequencer :=
  { tracks := stepCounts.map (fun n => { steps := List.replicate n newStep, active := true })
    playing := false
    tempo := 1200
    calls := [] }

/-- A model over `sampleSeq` with the given mode and cursors. -/
def sampleModel (stepCounts : List Nat) (md : mode) (track page : Int) : mainModel :=
  { New [] (sampleSeq stepCounts) with mode := md, activeTrack := track, activeTrackPage := page }

/-- The page cursor invariant `0 ≤ activeTrackPage < pageCount(activeTrack)`. -/
def pageCursorValid (stepsPerPage : Int) (m : mainModel) : Bool :=
  match trackPagesNb stepsPerPage m with
  | none => false
  | some pageNb => decide (0 ≤ m.activeTrackPage ∧ m.activeTrackPage < pageNb)

/-- Every track of the engine has at least one step. -/
def tracksNonEmpty (s : Sequencer) : Prop := ∀ t ∈ s.tracks, 1 ≤ t.steps.length

instance (s : Sequencer) : Decidable (tracksNonEmpty s) := by
  unfold tracksNonEmpty
  infer_instance

/-- The page cursor `page` is valid for the track at index `track` of `tracks`. -/
def validCursor (stepsPerPage : Int) (tracks : List Track) (track page : Int) : Prop :=
  ∃ t, index tracks track = some t ∧ 0 ≤ page ∧ page < pageCount stepsPerPage (len t.steps)

/-! ## Key map -/

/-- C6: in the key map built by DefaultKeyMap every multiplexed row (16 step select keys,
16 step toggle keys, 10 track select keys, 10 track toggle keys) has an index table that holds
exactly the keys of the row and maps the key at position i to i, so the ordinals of a row are
0..n-1 in order, no key occurs twice in a row, and the i-th keys of two aliased rows resolve
to the same ordinal. -/
theorem DefaultKeyMap_row_ordinals :
    (stepSelectKeys.length = 16 ∧ stepToggleKeys.length = 16 ∧
      trackSelectKeys.length = 10 ∧ trackToggleKeys.length = 10) ∧
    (stepSelectKeys.map DefaultKeyMap.StepSelectIndex.get = (List.range 16).map Int.ofNat ∧
      stepToggleKeys.map DefaultKeyMap.StepToggleIndex.get = (List.range 16).map Int.ofNat ∧
      trackSelectKeys.map DefaultKeyMap.TrackSelectIndex.get = (List.range 10).map Int.ofNat ∧
      trackToggleKeys.map DefaultKeyMap.TrackToggleIndex.get = (List.range 10).map Int.ofNat) ∧
    (DefaultKeyMap.StepSelectIndex.keys = stepSelectKeys ∧
      DefaultKeyMap.StepToggleIndex.keys = stepToggleKeys ∧
      DefaultKeyMap.TrackSelectIndex.keys = trackSelectKeys ∧
      DefaultKeyMap.TrackToggleIndex.keys = trackToggleKeys) ∧
    (stepSelectKeys.Nodup ∧ stepToggleKeys.Nodup ∧
      trackSelectKeys.Nodup ∧ trackToggleKeys.Nodup) ∧
    (∀ i : Fin 16,
      DefaultKeyMap.StepSelectIndex.get (stepSelectKeys.getD i "") = (i : Nat) ∧
      DefaultKeyMap.StepToggleIndex.get (stepToggleKeys.getD i "") = (i : Nat) ∧
      DefaultKeyMap.StepSelectIndex.get (stepSelectKeys.getD i "") =
        DefaultKeyMap.StepToggleIndex.get (stepToggleKeys.getD i "")) ∧
    (∀ i : Fin 10,
      DefaultKeyMap.TrackSelectIndex.get (trackSelectKeys.getD i "") = (i : Nat) ∧
      DefaultKeyMap.TrackToggleIndex.get (trackToggleKeys.getD i "") = (i : Nat) ∧
      DefaultKeyMap.TrackSelectIndex.get (trackSelectKeys.getD i "") =
        DefaultKeyMap.TrackToggleIndex.get (trackToggleKeys.getD i "")) ∧
    (DefaultKeyMap.StepSelect.keys = stepSelectKeys ∧
      DefaultKeyMap.StepToggle.keys = stepToggleKeys ∧
      DefaultKeyMap.TrackSelect.keys = trackSelectKeys ∧
      DefaultKeyMap.TrackToggle.keys = trackToggleKeys) := by
  refine ⟨by decide, by decide, by decide, by decide, by decide, by decide, by decide⟩

/-! ## Page cursor -/

/-- The TrackPageUp case of `Update` applies `pageUp` with the page count of the active
track. -/
theorem Update_TrackPageUp (stepsPerPage : Int) (rk : rowKeys) (m : mainModel) (key : String)
    (pageNb : Int) (hkey : matchCase m.keymap rk key = some keyCase.TrackPageUp)
    (hp : trackPagesNb stepsPerPage m = some pageNb) (hne : pageNb ≠ 0) :
    Update stepsPerPage rk m (Msg.KeyMsg key) =
      some ({ m with activeTrackPage := pageUp pageNb m.activeTrackPage }, Cmd.nil) := by
  simp [Update, hkey, hp, hne]

/-- The TrackPageDown case of `Update` applies `pageDown` with the page count of the active
track. -/
theorem Update_TrackPageDown (stepsPerPage : Int) (rk : rowKeys) (m : mainModel) (key : String)
    (pageNb : Int) (hkey : matchCase m.keymap rk key = some keyCase.TrackPageDown)
    (hp : trackPagesNb stepsPerPage m = some pageNb) :
    Update stepsPerPage rk m (Msg.KeyMsg key) =
      some ({ m with activeTrackPage := pageDown pageNb m.activeTrackPage }, Cmd.nil) := by
  simp [Update, hkey, hp]

/-- The two page transitions are inverse to each other on the pages 0..pageNb-1 and stay
among them. -/
theorem pageUp_pageDown_inverse (pageNb p : Int) (hn : 1 ≤ pageNb) (h0 : 0 ≤ p)
    (hp : p < pageNb) :
    pageDown pageNb (pageUp pageNb p) = p ∧
    pageUp pageNb (pageDown pageNb p) = p ∧
    (0 ≤ pageUp pageNb p ∧ pageUp pageNb p < pageNb) ∧
    (0 ≤ pageDown pageNb p ∧ pageDown pageNb p < pageNb) := by
  have hup : pageUp pageNb p = if p + 1 = pageNb then 0 else p + 1 := by
    unfold pageUp
    rw [Int.tmod_eq_emod (by omega) (by omega)]
    split
    · next h => rw [h]; exact Int.emod_self
    · next h => exact Int.emod_eq_of_lt (by omega) (by omega)
  have hupd : ∀ q : Int, 0 ≤ q → q < pageNb →
      pageUp pageNb q = if q + 1 = pageNb then 0 else q + 1 := by
    intro q hq0 hq
    unfold pageUp
    rw [Int.tmod_eq_emod (by omega) (by omega)]
    split
    · next h => rw [h]; exact Int.emod_self
    · next h => exact Int.emod_eq_of_lt (by omega) (by omega)
  have hdown : pageDown pageNb p = if p = 0 then pageNb - 1 else p - 1 := by
    unfold pageDown
    split <;> split <;> omega
  refine ⟨?_, ?_, ?_, ?_⟩
  · rw [hup]
    unfold pageDown
    split <;> split <;> omega
  · rw [hdown]
    split
    · rw [hupd (pageNb - 1) (by omega) (by omega)]
      split <;> omega
    · rw [hupd (p - 1) (by omega) (by omega)]
      split <;> omega
  · rw [hup]
    split <;> omega
  · rw [hdown]
    split <;> omega

/-- The value `pageUp` computes on a valid page: `(p + 1) mod pageNb`. -/
theorem pageUp_eq_emod (pageNb p : Int) (h0 : 0 ≤ p) (hp : p < pageNb) :
    pageUp pageNb p = (p + 1) % pageNb := by
  unfold pageUp
  exact Int.tmod_eq_emod (by omega) (by omega)

/-- C5: for every model whose active track has pageCount ≥ 1 pages and whose page p satisfies
0 ≤ p < pageCount, handling a TrackPage-up event sets the page to (p + 1) mod pageCount,
handling a TrackPage-down event sets it to pageCount - 1 if p - 1 < 0 and to p - 1 otherwise,
each changing nothing else and keeping the page in 0..pageCount-1; the up event followed by
the down event returns the original model, and so does the down event followed by the up
event. -/
theorem Update_TrackPage_roundtrip (stepsPerPage : Int) (rk : rowKeys) (m : mainModel)
    (keyUp keyDown : String) (pageNb : Int)
    (hup : matchCase m.keymap rk keyUp = some keyCase.TrackPageUp)
    (hdown : matchCase m.keymap rk keyDown = some keyCase.TrackPageDown)
    (hp : trackPagesNb stepsPerPage m = some pageNb) (hn : 1 ≤ pageNb)
    (h0 : 0 ≤ m.activeTrackPage) (hlt : m.activeTrackPage < pageNb) :
    ∃ mu md,
      Update stepsPerPage rk m (Msg.KeyMsg keyUp) = some (mu, Cmd.nil) ∧
      Update stepsPerPage rk m (Msg.KeyMsg keyDown) = some (md, Cmd.nil) ∧
      mu = { m with activeTrackPage := (m.activeTrackPage + 1) % pageNb } ∧
      md = { m with activeTrackPage :=
        if m.activeTrackPage - 1 < 0 then pageNb - 1 else m.activeTrackPage - 1 } ∧
      Update stepsPerPage rk mu (Msg.KeyMsg keyDown) = some (m, Cmd.nil) ∧
      Update stepsPerPage rk md (Msg.KeyMsg keyUp) = some (m, Cmd.nil) ∧
      run stepsPerPage rk m [Msg.KeyMsg keyUp, Msg.KeyMsg keyDown] = some m ∧
      run stepsPerPage rk m [Msg.KeyMsg keyDown, Msg.KeyMsg keyUp] = some m ∧
      (0 ≤ mu.activeTrackPage ∧ mu.activeTrackPage < pageNb) ∧
      (0 ≤ md.activeTrackPage ∧ md.activeTrackPage < pageNb) := by
  have hne : pageNb ≠ 0 := by omega
  obtain ⟨hdu, hud, hur, hdr⟩ := pageUp_pageDown_inverse pageNb m.activeTrackPage hn h0 hlt
  have hU1 : Update stepsPerPage rk m (Msg.KeyMsg keyUp) =
      some ({ m with activeTrackPage := pageUp pageNb m.activeTrackPage }, Cmd.nil) :=
    Update_TrackPageUp stepsPerPage rk m keyUp pageNb hup hp hne
  have hU2 : Update stepsPerPage rk m (Msg.KeyMsg keyDown) =
      some ({ m with activeTrackPage := pageDown pageNb m.activeTrackPage }, Cmd.nil) :=
    Update_TrackPageDown stepsPerPage rk m keyDown pageNb hdown hp
  have hU3 : Update stepsPerPage rk { m with activeTrackPage := pageUp pageNb m.activeTrackPage }
      (Msg.KeyMsg keyDown) = some (m, Cmd.nil) := by
    have h := Update_TrackPageDown stepsPerPage rk
      { m with activeTrackPage := pageUp pageNb m.activeTrackPage } keyDown pageNb hdown hp
    rw [h]
    simp only [hdu]
  have hU4 : Update stepsPerPage rk { m with activeTrackPage := pageDown pageNb m.activeTrackPage }
      (Msg.KeyMsg keyUp) = some (m, Cmd.nil) := by
    have h := Update_TrackPageUp stepsPerPage rk
      { m with activeTrackPage := pageDown pageNb m.activeTrackPage } keyUp pageNb hup hp hne
    rw [h]
    simp only [hud]
  refine ⟨{ m with activeTrackPage := pageUp pageNb m.activeTrackPage },
    { m with activeTrackPage := pageDown pageNb m.activeTrackPage },
    hU1, hU2, ?_, rfl, hU3, hU4, ?_, ?_, hur, hdr⟩
  · rw [pageUp_eq_emod pageNb m.activeTrackPage h0 hlt]
  · simp only [run, hU1, hU3]
  · simp only [run, hU2, hU4]

/-- Witness of C5: a track of 33 steps (three pages of 16), page 2 (the last one): the page-up
key followed by the page-down key, and the reverse, return to page 2. -/
theorem Update_TrackPage_roundtrip_witness :
    (matchCase (sampleModel [33] mode.trackMode 0 2).keymap defaultRows "p" =
        some keyCase.TrackPageUp ∧
      matchCase (sampleModel [33] mode.trackMode 0 2).keymap defaultRows "m" =
        some keyCase.TrackPageDown ∧
      trackPagesNb 16 (sampleModel [33] mode.trackMode 0 2) = some 3) ∧
    run 16 defaultRows (sampleModel [33] mode.trackMode 0 2) [Msg.KeyMsg "p"] =
      some (sampleModel [33] mode.trackMode 0 0) ∧
    run 16 defaultRows (sampleModel [33] mode.trackMode 0 2) [Msg.KeyMsg "m"] =
      some (sampleModel [33] mode.trackMode 0 1) ∧
    run 16 defaultRows (sampleModel [33] mode.trackMode 0 2) [Msg.KeyMsg "p", Msg.KeyMsg "m"] =
      some (sampleModel [33] mode.trackMode 0 2) ∧
    run 16 defaultRows (sampleModel [33] mode.trackMode 0 2) [Msg.KeyMsg "m", Msg.KeyMsg "p"] =
      some (sampleModel [33] mode.trackMode 0 2) := by
  refine ⟨by decide, ?_⟩
  obtain ⟨mu, md, hU1, hU2, hmu, hmd, _, _, hud, hdu, _, _⟩ :=
    Update_TrackPage_roundtrip 16 defaultRows (sampleModel [33] mode.trackMode 0 2) "p" "m" 3
      (by decide) (by decide) (by decide) (by decide) (by decide) (by decide)
  refine ⟨?_, ?_, hud, hdu⟩
  · simp only [run, hU1, hmu]
    decide
  · simp only [run, hU2, hmd]
    decide

/-! ## Cell size -/

/-- Counterexample to C7 as stated: with w = floor(W/stepsPerLine) - 2 = 15 the height
floor(15/2) - 1 = 6 is below the minimum 7, and stepSize returns (15, 7), not (15, 6). It is
evaluated for 8 steps per line at W = 136, and holds at W = 17 * stepsPerLine for every
positive stepsPerLine. -/
theorem stepSize_width_15_returns_minimum :
    (let m := { sampleModel [1] mode.trackMode 0 0 with width := 136 }
     (0 : Int) ≤ m.width ∧ m.width / 8 - 2 = 15 ∧ ¬ (m.width / 8 - 2 < 15) ∧
      stepSize 8 m = (15, 7) ∧
      stepSize 8 m ≠ (m.width / 8 - 2, (m.width / 8 - 2) / 2 - 1)) ∧
    (∀ (stepsPerLine : Int) (m : mainModel), 0 < stepsPerLine → m.width = 17 * stepsPerLine →
      m.width / stepsPerLine - 2 = 15 ∧ stepSize stepsPerLine m = (15, 7) ∧
      stepSize stepsPerLine m ≠ (m.width / stepsPerLine - 2,
        (m.width / stepsPerLine - 2) / 2 - 1)) := by
  refine ⟨by decide, ?_⟩
  intro spl m hspl hw
  have hdiv : m.width / spl = 17 := by
    rw [hw]; exact Int.mul_ediv_cancel 17 (by omega)
  have htdiv : Int.tdiv m.width spl = 17 := by
    rw [Int.tdiv_eq_ediv (by rw [hw]; positivity) (by omega)]; exact hdiv
  refine ⟨by rw [hdiv]; rfl, ?_, ?_⟩
  · unfold stepSize
    simp only [htdiv]
    decide
  · unfold stepSize
    simp only [htdiv, hdiv]
    decide

/-- C7 (amended): for every terminal width W ≥ 0 and positive stepsPerLine, with
w = floor(W/stepsPerLine) - 2, stepSize returns (15, 7) whenever w < 16 (that is, whenever
w < 15 or floor(w/2) - 1 < 7), and returns exactly (w, floor(w/2) - 1) for every w ≥ 16. -/
theorem stepSize_spec (stepsPerLine : Int) (m : mainModel) (hspl : 0 < stepsPerLine)
    (hW : 0 ≤ m.width) :
    (m.width / stepsPerLine - 2 < 16 → stepSize stepsPerLine m = (15, 7)) ∧
    (16 ≤ m.width / stepsPerLine - 2 →
      stepSize stepsPerLine m =
        (m.width / stepsPerLine - 2, (m.width / stepsPerLine - 2) / 2 - 1)) ∧
    (m.width / stepsPerLine - 2 < 16 ↔
      (m.width / stepsPerLine - 2 < 15 ∨ (m.width / stepsPerLine - 2) / 2 - 1 < 7)) := by
  have htdiv : Int.tdiv m.width stepsPerLine = m.width / stepsPerLine :=
    Int.tdiv_eq_ediv hW (by omega)
  have hsw : stepWidth = 15 := rfl
  have hsh : stepHeight = 7 := by decide
  have hq : 0 ≤ m.width / stepsPerLine := Int.ediv_nonneg hW (by omega)
  refine ⟨?_, ?_, by omega⟩
  · intro h
    unfold stepSize
    simp only [htdiv, hsw, hsh]
    by_cases h15 : m.width / stepsPerLine - 2 < 15
    · simp [h15]
    · have h2 : Int.tdiv (m.width / stepsPerLine - 2) 2 = (m.width / stepsPerLine - 2) / 2 :=
        Int.tdiv_eq_ediv (by omega) (by omega)
      rw [h2]
      have : (m.width / stepsPerLine - 2) / 2 - 1 < 7 := by omega
      simp [this]
  · intro h
    unfold stepSize
    simp only [htdiv, hsw, hsh]
    have h2 : Int.tdiv (m.width / stepsPerLine - 2) 2 = (m.width / stepsPerLine - 2) / 2 :=
      Int.tdiv_eq_ediv (by omega) (by omega)
    rw [h2]
    have h1 : ¬ (m.width / stepsPerLine - 2 < 15) := by omega
    have h3 : ¬ ((m.width / stepsPerLine - 2) / 2 - 1 < 7) := by omega
    simp [h1, h3]

/-- Witness of C7 (amended): 8 steps per line and a terminal 160 columns wide give w = 18
and cells of 18 by 8. -/
theorem stepSize_spec_witness :
    ((0 : Int) < 8 ∧ (0 : Int) ≤ ({ sampleModel [1] mode.trackMode 0 0 with width := 160 }).width) ∧
    stepSize 8 { sampleModel [1] mode.trackMode 0 0 with width := 160 } = (18, 8) :=
  ⟨by decide,
    ((stepSize_spec 8 { sampleModel [1] mode.trackMode 0 0 with width := 160 }
      (by decide) (by decide)).2.1 (by decide)).trans (by decide)⟩

/-! ## Removal -/

theorem len_RemoveTrack (s : Sequencer) :
    len s.RemoveTrack.Tracks = if len s.Tracks ≤ 1 then len s.Tracks else len s.Tracks - 1 := by
  unfold Sequencer.RemoveTrack Sequencer.Tracks len
  by_cases h : s.tracks.length ≤ 1
  · have h1 : (s.tracks.length : Int) ≤ 1 := by exact_mod_cast h
    simp [h, h1]
  · have h1 : ¬ (s.tracks.length : Int) ≤ 1 := by
      intro hc; exact h (by exact_mod_cast hc)
    simp only [h, h1, if_false, List.length_dropLast]
    omega

theorem removeTrackCursor_activeTrack (m : mainModel) :
    (removeTrackCursor m).activeTrack =
      if m.activeTrack > 0 ∧ m.activeTrack = len m.seq.Tracks - 1 then m.activeTrack - 1
      else m.activeTrack := by
  unfold removeTrackCursor
  split <;> rfl

theorem removeStepCursor_activeTrackPage (m : mainModel) :
    (removeStepCursor 0 m).activeTrackPage =
      if m.activeTrackPage > 0 then m.activeTrackPage - 1 else m.activeTrackPage := by
  unfold removeStepCursor
  by_cases h : m.activeTrackPage > 0
  · simp [h]
  · simp [h]

/-- C1: in trackMode, with at least one track and a valid active track, handling a Remove
event moves activeTrack to trackCount-2 when it was the last index and positive, leaves it
unchanged when it was below the last index, and requests RemoveTrack from the engine exactly
once, on the model whose cursor is already adjusted; the cursor is valid afterwards. -/
theorem removePress_trackMode_spec (stepsPerPage : Int) (rk : rowKeys) (m : mainModel)
    (key : String) (hkey : matchCase m.keymap rk key = some keyCase.Remove)
    (hmode : m.mode = mode.trackMode) (hcount : 1 ≤ len m.seq.Tracks)
    (h0 : 0 ≤ m.activeTrack) (hlt : m.activeTrack < len m.seq.Tracks) :
    ∃ m1, Update stepsPerPage rk m (Msg.KeyMsg key) = some (m1, Cmd.nil) ∧
      (m.activeTrack = len m.seq.Tracks - 1 ∧ 0 < m.activeTrack →
        m1.activeTrack = len m.seq.Tracks - 2) ∧
      (m.activeTrack < len m.seq.Tracks - 1 → m1.activeTrack = m.activeTrack) ∧
      m1.seq.calls = m.seq.calls ++ [Call.RemoveTrack] ∧
      m1 = { removeTrackCursor m with seq := (removeTrackCursor m).seq.RemoveTrack } ∧
      m1.seq = m.seq.RemoveTrack ∧
      (0 ≤ m1.activeTrack ∧ m1.activeTrack < len m1.seq.Tracks) := by
  refine ⟨{ removeTrackCursor m with seq := (removeTrackCursor m).seq.RemoveTrack }, ?_, ?_, ?_,
    ?_, rfl, ?_, ?_⟩
  · simp [Update, hkey, removePress, hmode]
  · rintro ⟨h1, h2⟩
    have hc := removeTrackCursor_activeTrack m
    simp only
    split at hc <;> omega
  · intro h
    have hc := removeTrackCursor_activeTrack m
    simp only
    split at hc <;> omega
  · unfold removeTrackCursor
    split <;> rfl
  · unfold removeTrackCursor
    split <;> rfl
  · have hseq : (removeTrackCursor m).seq = m.seq := by
      unfold removeTrackCursor
      split <;> rfl
    have hlen := len_RemoveTrack m.seq
    simp only [hseq]
    have hc := removeTrackCursor_activeTrack m
    split at hc <;> split at hlen <;> omega

/-- Witness of C1: three tracks, the last one active: Remove leaves activeTrack = 1 and
one RemoveTrack call. -/
theorem removePress_trackMode_spec_witness :
    (matchCase (sampleModel [16, 16, 16] mode.trackMode 2 0).keymap defaultRows ")" =
        some keyCase.Remove ∧
      len (sampleModel [16, 16, 16] mode.trackMode 2 0).seq.Tracks = 3 ∧
      (sampleModel [16, 16, 16] mode.trackMode 2 0).activeTrack = 2) ∧
    ∃ m1, Update 16 defaultRows (sampleModel [16, 16, 16] mode.trackMode 2 0) (Msg.KeyMsg ")") =
        some (m1, Cmd.nil) ∧
      m1.activeTrack = 1 ∧ m1.seq.calls = [Call.RemoveTrack] := by
  refine ⟨by decide, ?_⟩
  obtain ⟨m1, hU, hlast, _, hcalls, _, _, _⟩ :=
    removePress_trackMode_spec 16 defaultRows (sampleModel [16, 16, 16] mode.trackMode 2 0) ")"
      (by decide) (by decide) (by decide) (by decide) (by decide)
  exact ⟨m1, hU, (hlast (by decide)).trans (by decide), hcalls.trans (by decide)⟩

/-- C2: in recMode, when the active track has stepCount ≥ 1 steps and
(stepCount - 1) mod stepsPerPage = 0, handling a Remove event decrements activeTrackPage by
exactly one if and only if it is positive, leaves it unchanged (at 0) otherwise, and requests
RemoveStep(activeTrack) from the engine exactly once, after the cursor adjustment. -/
theorem removePress_recMode_spec (stepsPerPage : Int) (rk : rowKeys) (m : mainModel)
    (key : String) (t : Track) (hkey : matchCase m.keymap rk key = some keyCase.Remove)
    (hmode : m.mode = mode.recMode) (hspp : 0 < stepsPerPage)
    (ht : index m.seq.Tracks m.activeTrack = some t) (hcount : 1 ≤ len t.steps)
    (hlast : (len t.steps - 1) % stepsPerPage = 0) :
    ∃ m1, Update stepsPerPage rk m (Msg.KeyMsg key) = some (m1, Cmd.nil) ∧
      (m1.activeTrackPage = m.activeTrackPage - 1 ↔ 0 < m.activeTrackPage) ∧
      (¬ 0 < m.activeTrackPage → m1.activeTrackPage = m.activeTrackPage) ∧
      (m.activeTrackPage = 0 → m1.activeTrackPage = 0) ∧
      m1.seq.calls = m.seq.calls ++ [Call.RemoveStep m.activeTrack] ∧
      m1 = { removeStepCursor 0 m with
        seq := (removeStepCursor 0 m).seq.RemoveStep (removeStepCursor 0 m).activeTrack } ∧
      m1.seq = m.seq.RemoveStep m.activeTrack ∧
      m1.activeTrack = m.activeTrack := by
  have hrem : Int.tmod (len t.steps - 1) stepsPerPage = 0 := by
    rw [Int.tmod_eq_emod (by omega) (by omega)]; exact hlast
  have hne : stepsPerPage ≠ 0 := by omega
  refine ⟨{ removeStepCursor 0 m with
    seq := (removeStepCursor 0 m).seq.RemoveStep (removeStepCursor 0 m).activeTrack }, ?_, ?_, ?_,
    ?_, ?_, rfl, ?_, ?_⟩
  · simp [Update, hkey, removePress, hmode, ht, hne, hrem]
  · have hc := removeStepCursor_activeTrackPage m
    simp only
    split at hc <;> constructor <;> intro _ <;> omega
  · intro h
    have hc := removeStepCursor_activeTrackPage m
    simp only
    split at hc <;> omega
  · intro h
    have hc := removeStepCursor_activeTrackPage m
    simp only
    split at hc <;> omega
  · unfold removeStepCursor
    split <;> rfl
  · unfold removeStepCursor
    split <;> rfl
  · unfold removeStepCursor
    split <;> rfl

/-- Witness of C2: 16 steps per page, 17 steps, page 1: Remove leaves page 0 and one
RemoveStep call. -/
theorem removePress_recMode_spec_witness :
    (matchCase (sampleModel [17] mode.recMode 0 1).keymap defaultRows ")" =
        some keyCase.Remove ∧
      (index (sampleModel [17] mode.recMode 0 1).seq.Tracks 0).map (fun t => len t.steps) =
        some 17 ∧
      ((17 : Int) - 1) % 16 = 0) ∧
    ∃ m1, Update 16 defaultRows (sampleModel [17] mode.recMode 0 1) (Msg.KeyMsg ")") =
        some (m1, Cmd.nil) ∧
      m1.activeTrackPage = 0 ∧ m1.seq.calls = [Call.RemoveStep 0] := by
  refine ⟨by decide, ?_⟩
  obtain ⟨m1, hU, hiff, _, _, hcalls, _, _, _⟩ :=
    removePress_recMode_spec 16 defaultRows (sampleModel [17] mode.recMode 0 1) ")"
      { steps := List.replicate 17 newStep, active := true }
      (by decide) (by decide) (by decide) (by decide) (by decide) (by decide)
  exact ⟨m1, hU, (hiff.2 (by decide)).trans (by decide), hcalls.trans (by decide)⟩

/-! ## Track selection -/

theorem stepPress_trackMode_activeTrack (stepsPerPage : Int) (rk : rowKeys) (m : mainModel)
    (key : String) (hmode : m.mode = mode.trackMode) :
    (stepPress stepsPerPage rk m key).activeTrack =
      if rk.StepsIndex.get key ≥ len m.seq.Tracks then m.activeTrack
      else rk.StepsIndex.get key := by
  by_cases h : rk.StepsIndex.get key ≥ len m.seq.Tracks <;> simp [stepPress, hmode, h]

/-- C4: in trackMode, a select-row key with ordinal n sets activeTrack to n when
n < trackCount and nothing else; when n ≥ trackCount the model is unchanged; in both cases the
engine receives no request. From a valid active track, activeTrack is n afterwards if and
only if n < trackCount, and it stays within 0..trackCount-1 for an ordinal n ≥ 0. -/
theorem stepPress_trackMode_spec (stepsPerPage : Int) (rk : rowKeys) (m : mainModel)
    (key : String) (n : Int) (hkey : matchCase m.keymap rk key = some keyCase.Steps)
    (hmode : m.mode = mode.trackMode) (hn : rk.StepsIndex.get key = n) :
    ∃ m1, Update stepsPerPage rk m (Msg.KeyMsg key) = some (m1, Cmd.nil) ∧
      (n < len m.seq.Tracks → m1 = { m with activeTrack := n }) ∧
      (n ≥ len m.seq.Tracks → m1 = m) ∧
      m1.seq = m.seq ∧
      (m1.activeTrackPage = m.activeTrackPage ∧ m1.activeParam = m.activeParam ∧
        m1.mode = m.mode) ∧
      (0 ≤ m.activeTrack ∧ m.activeTrack < len m.seq.Tracks →
        (m1.activeTrack = n ↔ n < len m.seq.Tracks)) ∧
      (0 ≤ n → 0 ≤ m.activeTrack ∧ m.activeTrack < len m.seq.Tracks →
        0 ≤ m1.activeTrack ∧ m1.activeTrack < len m1.seq.Tracks) := by
  refine ⟨stepPress stepsPerPage rk m key, ?_, ?_, ?_, ?_, ?_, ?_, ?_⟩
  · simp [Update, hkey]
  · intro h
    have : ¬ (n ≥ len m.seq.Tracks) := by omega
    simp [stepPress, hmode, hn, this]
  · intro h
    simp [stepPress, hmode, hn, h]
  · by_cases h : n ≥ len m.seq.Tracks <;> simp [stepPress, hmode, hn, h]
  · by_cases h : n ≥ len m.seq.Tracks <;> simp [stepPress, hmode, hn, h]
  · rintro ⟨h0, h1⟩
    have hc := stepPress_trackMode_activeTrack stepsPerPage rk m key hmode
    rw [hn] at hc
    split at hc <;> constructor <;> intro _ <;> omega
  · rintro hn0 ⟨h0, h1⟩
    have hc := stepPress_trackMode_activeTrack stepsPerPage rk m key hmode
    have hs : (stepPress stepsPerPage rk m key).seq = m.seq := by
      by_cases h : n ≥ len m.seq.Tracks <;> simp [stepPress, hmode, hn, h]
    rw [hn] at hc
    rw [hs]
    split at hc <;> omega

/-- Witness of C4: three tracks, track 0 active; the second key of the select row selects
track 1, and the fifth key (ordinal 4) changes nothing. -/
theorem stepPress_trackMode_spec_witness :
    (matchCase (sampleModel [16, 16, 16] mode.trackMode 0 0).keymap defaultRows "z" =
        some keyCase.Steps ∧
      defaultRows.StepsIndex.get "z" = 1 ∧ defaultRows.StepsIndex.get "t" = 4) ∧
    (∃ m1, Update 16 defaultRows (sampleModel [16, 16, 16] mode.trackMode 0 0) (Msg.KeyMsg "z") =
        some (m1, Cmd.nil) ∧
      m1 = sampleModel [16, 16, 16] mode.trackMode 1 0) ∧
    (∃ m1, Update 16 defaultRows (sampleModel [16, 16, 16] mode.trackMode 0 0) (Msg.KeyMsg "t") =
        some (m1, Cmd.nil) ∧
      m1 = sampleModel [16, 16, 16] mode.trackMode 0 0) := by
  refine ⟨by decide, ?_, ?_⟩
  · obtain ⟨m1, hU, hsel, _⟩ :=
      stepPress_trackMode_spec 16 defaultRows (sampleModel [16, 16, 16] mode.trackMode 0 0) "z" 1
        (by decide) (by decide) (by decide)
    exact ⟨m1, hU, (hsel (by decide)).trans (by decide)⟩
  · obtain ⟨m1, hU, _, hkeep, _⟩ :=
      stepPress_trackMode_spec 16 defaultRows (sampleModel [16, 16, 16] mode.trackMode 0 0) "t" 4
        (by decide) (by decide) (by decide)
    exact ⟨m1, hU, hkeep (by decide)⟩

/-! ## Quit and mode toggle -/

/-- C9: handling a Quit event sends the engine one TogglePlay followed by one Reset when it
is playing, and one Reset and no TogglePlay when it is not; the returned command is the quit
command and no field of the model other than the engine changes. -/
theorem Update_Quit_spec (stepsPerPage : Int) (rk : rowKeys) (m : mainModel) (key : String)
    (hkey : matchCase m.keymap rk key = some keyCase.Quit) :
    ∃ m1, Update stepsPerPage rk m (Msg.KeyMsg key) = some (m1, Cmd.Quit) ∧
      (m.seq.IsPlaying = true →
        m1.seq.calls = m.seq.calls ++ [Call.TogglePlay, Call.Reset] ∧
        m1.seq = m.seq.TogglePlay.Reset) ∧
      (m.seq.IsPlaying = false →
        m1.seq.calls = m.seq.calls ++ [Call.Reset] ∧ m1.seq = m.seq.Reset) ∧
      m1 = { m with seq := m1.seq } := by
  by_cases hp : m.seq.IsPlaying = true
  · refine ⟨{ m with seq := m.seq.TogglePlay.Reset }, ?_, ?_, ?_, rfl⟩
    · simp [Update, hkey, hp]
    · intro _
      simp [Sequencer.Reset, Sequencer.TogglePlay, Sequencer.record]
    · intro h
      rw [h] at hp
      exact absurd hp (by decide)
  · refine ⟨{ m with seq := m.seq.Reset }, ?_, ?_, ?_, rfl⟩
    · simp [Update, hkey, hp]
    · intro h
      exact absurd h hp
    · intro _
      simp [Sequencer.Reset, Sequencer.record]

/-- Witness of C9: quitting with the escape key while the engine is playing. -/
theorem Update_Quit_spec_witness :
    matchCase (sampleModel [16] mode.trackMode 0 0).keymap defaultRows "esc" =
      some keyCase.Quit ∧
    ∃ m1, Update 16 defaultRows
        { sampleModel [16] mode.trackMode 0 0 with seq := (sampleSeq [16]).TogglePlay }
        (Msg.KeyMsg "esc") = some (m1, Cmd.Quit) ∧
      m1.seq.calls = [Call.TogglePlay, Call.TogglePlay, Call.Reset] ∧
      m1.seq.playing = false := by
  refine ⟨by decide, ?_⟩
  obtain ⟨m1, hU, hplay, _, _⟩ :=
    Update_Quit_spec 16 defaultRows
      { sampleModel [16] mode.trackMode 0 0 with seq := (sampleSeq [16]).TogglePlay } "esc"
      (by decide)
  have h := hplay (by decide)
  exact ⟨m1, hU, h.1.trans (by decide), by rw [h.2]; decide⟩

/-- C10: handling two consecutive Mode-toggle events returns the original model; one toggle
takes trackMode to recMode and recMode to trackMode, changes no other field of the model
(cursors, terminal size, help flag, engine) and returns no command. -/
theorem Update_Mode_involution (stepsPerPage : Int) (rk : rowKeys) (m : mainModel)
    (key : String) (hkey : matchCase m.keymap rk key = some keyCase.Mode) :
    ∃ m1, Update stepsPerPage rk m (Msg.KeyMsg key) = some (m1, Cmd.nil) ∧
      Update stepsPerPage rk m1 (Msg.KeyMsg key) = some (m, Cmd.nil) ∧
      (m.mode = mode.trackMode → m1.mode = mode.recMode) ∧
      (m.mode = mode.recMode → m1.mode = mode.trackMode) ∧
      m1 = { m with mode := m1.mode } ∧
      (m1.activeTrack = m.activeTrack ∧ m1.activeTrackPage = m.activeTrackPage ∧
        m1.activeParam = m.activeParam ∧ m1.width = m.width ∧ m1.height = m.height ∧
        m1.help = m.help ∧ m1.seq = m.seq) := by
  cases hm : m.mode with
  | trackMode =>
    refine ⟨{ m with mode := mode.recMode }, ?_, ?_, ?_, ?_, rfl, ?_⟩
    · simp [Update, hkey, hm]
    · have hkey1 : matchCase ({ m with mode := mode.recMode } : mainModel).keymap rk key =
          some keyCase.Mode := hkey
      simp only [Update, hkey1]
      simp only [reduceCtorEq, if_false]
      rw [← hm]
    · intro _; rfl
    · intro h; exact absurd h (by simp)
    · exact ⟨rfl, rfl, rfl, rfl, rfl, rfl, rfl⟩
  | recMode =>
    refine ⟨{ m with mode := mode.trackMode }, ?_, ?_, ?_, ?_, rfl, ?_⟩
    · simp [Update, hkey, hm]
    · have hkey1 : matchCase ({ m with mode := mode.trackMode } : mainModel).keymap rk key =
          some keyCase.Mode := hkey
      simp only [Update, hkey1]
      simp only [if_true]
      rw [← hm]
    · intro h; exact absurd h (by simp)
    · intro _; rfl
    · exact ⟨rfl, rfl, rfl, rfl, rfl, rfl, rfl⟩

/-- Witness of C10: the tab key pressed twice in trackMode. -/
theorem Update_Mode_involution_witness :
    matchCase (sampleModel [16] mode.trackMode 0 0).keymap defaultRows "tab" =
      some keyCase.Mode ∧
    run 16 defaultRows (sampleModel [16] mode.trackMode 0 0) [Msg.KeyMsg "tab"] =
      some (sampleModel [16] mode.recMode 0 0) ∧
    run 16 defaultRows (sampleModel [16] mode.trackMode 0 0) [Msg.KeyMsg "tab", Msg.KeyMsg "tab"] =
      some (sampleModel [16] mode.trackMode 0 0) := by
  refine ⟨by decide, ?_⟩
  obtain ⟨m1, hU1, hU2, hrec, _, _, _⟩ :=
    Update_Mode_involution 16 defaultRows (sampleModel [16] mode.trackMode 0 0) "tab" (by decide)
  have hm1 : m1 = sampleModel [16] mode.recMode 0 0 := by
    have h := hU1
    rw [show Update 16 defaultRows (sampleModel [16] mode.trackMode 0 0) (Msg.KeyMsg "tab") =
      some (sampleModel [16] mode.recMode 0 0, Cmd.nil) by decide] at h
    exact ((Prod.mk.inj (Option.some.inj h)).1).symm
  constructor
  · simp only [run, hU1, hm1]
  · simp only [run, hU1, hU2]

/-! ## Velocity indicator -/

theorem stepSize_height_ge (stepsPerLine : Int) (m : mainModel) :
    7 ≤ (stepSize stepsPerLine m).2 := by
  have hsh : stepHeight = 7 := by decide
  unfold stepSize
  simp only
  split
  · simp [hsh]
  · next h =>
    simp only
    rw [hsh] at h
    omega

/-- A column built row by row, row `k + 1` being filled exactly when `value < k + 1`, is
`value` blank rows (at most all of them) followed by filled rows. -/
theorem rows_blank_then_filled (n : Nat) (value : Int) (hv : 0 ≤ value) :
    (List.range n).map (fun (k : Nat) => if value < (k : Int) + 1 then "█" else " ") =
      List.replicate (min n value.toNat) " " ++
        List.replicate (n - min n value.toNat) "█" := by
  apply List.ext_getElem
  · simp
  · intro i h1 h2
    simp only [List.getElem_map, List.getElem_range]
    by_cases hlt : i < min n value.toNat
    · rw [List.getElem_append_left (by simpa using hlt)]
      have : ¬ value < (i : Int) + 1 := by omega
      simp [this]
    · rw [List.getElem_append_right (by simp only [List.length_replicate]; omega)]
      have hn : i < n := by simpa using h1
      have : value < (i : Int) + 1 := by omega
      simp [this]

/-- Counterexample to C8 as stated: for velocity 15 and the cell height H = 7 the indicator
is a column of 7 rows that are all blank, where floor((127 - 15) * 7 / 127) = 6. The rendered
step string is 8 lines high (the 7 lines of the cell and one margin line) and the number of
blank rows is computed from 8. Whatever the rendered height, the column is not one of 7 rows
with exactly 6 blank rows on top. -/
theorem velocityIndicator_velocity_15_all_blank :
    ((stepSize 8 (sampleModel [1] mode.trackMode 0 0)).2 = 7 ∧
      ((127 - 15) * 7 / 127 : Int) = 6 ∧
      velocityIndicator 8 5 (sampleModel [1] mode.trackMode 0 0)
        { active := true, current := false, velocity := 15 } = List.replicate 7 " " ∧
      blankRows (velocityIndicator 8 5 (sampleModel [1] mode.trackMode 0 0)
        { active := true, current := false, velocity := 15 }) = 7) ∧
    (∀ stepStrHeight : Int,
      ¬ ((velocityRows 15 stepStrHeight).length = 7 ∧
        blankRows (velocityRows 15 stepStrHeight) = 6)) := by
  refine ⟨by decide, ?_⟩
  rintro hs ⟨hl, hb⟩
  have h8 : hs = 8 := by
    simp only [velocityRows, List.length_map, List.length_range] at hl
    omega
  subst h8
  revert hb
  decide

/-- C8 (amended): for an active step that is not the current step of a playing engine, with
velocity v in 0..127, and the cell height H returned by stepSize (the text of the cell being
at most H lines), the velocity indicator built by renderStep is a column of exactly H rows
whose topmost min(H, floor((127 - v) * (H + 1) / 127)) rows are blank and whose remaining
rows are filled; v = 127 gives no blank row and v = 0 gives H blank rows. -/
theorem velocityIndicator_spec (stepsPerLine contentHeight : Int) (m : mainModel) (step : Step)
    (hactive : step.active = true) (hcur : (m.seq.IsPlaying && step.current) = false)
    (hv : step.velocity ≤ 127) (hc : contentHeight ≤ (stepSize stepsPerLine m).2) :
    ((velocityIndicator stepsPerLine contentHeight m step).length : Int) =
      (stepSize stepsPerLine m).2 ∧
    velocityIndicator stepsPerLine contentHeight m step =
      List.replicate
        (min (stepSize stepsPerLine m).2
          ((127 - (step.velocity : Int)) * ((stepSize stepsPerLine m).2 + 1) / 127)).toNat " " ++
      List.replicate
        ((stepSize stepsPerLine m).2 -
          min (stepSize stepsPerLine m).2
            ((127 - (step.velocity : Int)) * ((stepSize stepsPerLine m).2 + 1) / 127)).toNat "█" ∧
    (step.velocity = 127 →
      velocityIndicator stepsPerLine contentHeight m step =
        List.replicate (stepSize stepsPerLine m).2.toNat "█") ∧
    (step.velocity = 0 →
      velocityIndicator stepsPerLine contentHeight m step =
        List.replicate (stepSize stepsPerLine m).2.toNat " ") := by
  have hH := stepSize_height_ge stepsPerLine m
  generalize hHd : (stepSize stepsPerLine m).2 = H at hH hc ⊢
  have hrows : velocityIndicator stepsPerLine contentHeight m step =
      velocityRows step.velocity (H + 1) := by
    unfold velocityIndicator
    simp only [hcur, hactive, hHd, activeStepStrHeight, max_eq_left hc]
    rfl
  have hnum : (0 : Int) ≤ (127 - (step.velocity : Int)) * (H + 1) :=
    Int.mul_nonneg (by omega) (by omega)
  have hval : Int.tdiv ((127 - (step.velocity : Int)) * (H + 1)) 127 =
      (127 - (step.velocity : Int)) * (H + 1) / 127 := Int.tdiv_eq_ediv hnum (by omega)
  have hval0 : 0 ≤ (127 - (step.velocity : Int)) * (H + 1) / 127 :=
    Int.ediv_nonneg hnum (by omega)
  have hsplit : velocityRows step.velocity (H + 1) =
      List.replicate (min H.toNat ((127 - (step.velocity : Int)) * (H + 1) / 127).toNat) " " ++
      List.replicate
        (H.toNat - min H.toNat ((127 - (step.velocity : Int)) * (H + 1) / 127).toNat) "█" := by
    unfold velocityRows
    simp only [hval]
    have : (H + 1 - 1).toNat = H.toNat := by rw [Int.add_sub_cancel]
    rw [this]
    exact rows_blank_then_filled H.toNat _ hval0
  have hmin : (min H ((127 - (step.velocity : Int)) * (H + 1) / 127)).toNat =
      min H.toNat ((127 - (step.velocity : Int)) * (H + 1) / 127).toNat := by
    omega
  have hrest : (H - min H ((127 - (step.velocity : Int)) * (H + 1) / 127)).toNat =
      H.toNat - min H.toNat ((127 - (step.velocity : Int)) * (H + 1) / 127).toNat := by
    omega
  refine ⟨?_, ?_, ?_, ?_⟩
  · rw [hrows, hsplit]
    simp only [List.length_append, List.length_replicate]
    omega
  · rw [hrows, hsplit, hmin, hrest]
  · intro h127
    rw [hrows, hsplit, h127]
    simp
  · intro h0
    rw [hrows, hsplit, h0]
    have hq : (127 - ((0 : Nat) : Int)) * (H + 1) / 127 = H + 1 := by
      have : (127 - ((0 : Nat) : Int)) * (H + 1) = 127 * (H + 1) := by simp
      rw [this]
      exact Int.mul_ediv_cancel_left _ (by omega)
    rw [hq]
    have : min H.toNat (H + 1).toNat = H.toNat := by omega
    rw [this]
    simp

/-- Witness of C8 (amended): velocity 64 in a cell of height 7 gives 3 blank rows on top of
4 filled rows. -/
theorem velocityIndicator_spec_witness :
    (({ active := true, current := false, velocity := 64 } : Step).active = true ∧
      (64 : Nat) ≤ 127 ∧ (5 : Int) ≤ (stepSize 8 (sampleModel [1] mode.trackMode 0 0)).2) ∧
    velocityIndicator 8 5 (sampleModel [1] mode.trackMode 0 0)
      { active := true, current := false, velocity := 64 } =
      [" ", " ", " ", "█", "█", "█", "█"] :=
  ⟨by decide,
    ((velocityIndicator_spec 8 5 (sampleModel [1] mode.trackMode 0 0)
      { active := true, current := false, velocity := 64 }
      (by decide) (by decide) (by decide) (by decide)).2.1).trans (by decide)⟩

/-! ## Page cursor invariant -/

/-- C3: the page cursor invariant is broken by a track selection. From the state built by
New over an engine whose tracks have 17 steps and 1 step (16 steps per page), where the
invariant holds, a TrackPage-up event followed by the selection of the second track leaves
activeTrack = 1 and activeTrackPage = 1 while the second track has a single page. Removing
the last track in trackMode breaks it in the same way. -/
theorem pageCursorValid_broken_by_track_select :
    pageCursorValid 16 (New [] (sampleSeq [17, 1])) = true ∧
    matchCase (New [] (sampleSeq [17, 1])).keymap defaultRows "p" = some keyCase.TrackPageUp ∧
    matchCase (New [] (sampleSeq [17, 1])).keymap defaultRows "z" = some keyCase.Steps ∧
    run 16 defaultRows (New [] (sampleSeq [17, 1])) [Msg.KeyMsg "p"] =
      some (sampleModel [17, 1] mode.trackMode 0 1) ∧
    pageCursorValid 16 (sampleModel [17, 1] mode.trackMode 0 1) = true ∧
    run 16 defaultRows (New [] (sampleSeq [17, 1])) [Msg.KeyMsg "p", Msg.KeyMsg "z"] =
      some (sampleModel [17, 1] mode.trackMode 1 1) ∧
    trackPagesNb 16 (sampleModel [17, 1] mode.trackMode 1 1) = some 1 ∧
    pageCursorValid 16 (sampleModel [17, 1] mode.trackMode 1 1) = false ∧
    run 16 defaultRows (sampleModel [1, 17] mode.trackMode 1 1) [Msg.KeyMsg ")"] =
      some { sampleModel [1] mode.trackMode 0 1 with
        seq := { sampleSeq [1] with calls := [Call.RemoveTrack] } } ∧
    pageCursorValid 16 (sampleModel [1, 17] mode.trackMode 1 1) = true ∧
    pageCursorValid 16 { sampleModel [1] mode.trackMode 0 1 with
        seq := { sampleSeq [1] with calls := [Call.RemoveTrack] } } = false := by
  decide


/-! ## What preserves the page cursor invariant -/

theorem pageCount_eq (stepsPerPage n : Int) (hspp : 0 < stepsPerPage) (hn : 1 ≤ n) :
    pageCount stepsPerPage n = (n - 1) / stepsPerPage + 1 := by
  unfold pageCount
  rw [Int.tmod_eq_emod (by omega) (by omega), Int.tdiv_eq_ediv (by omega) (by omega)]
  have h1 := Int.ediv_add_emod (n - 1) stepsPerPage
  have h2 := Int.emod_nonneg (n - 1) (by omega : stepsPerPage ≠ 0)
  have h3 := Int.emod_lt_of_pos (n - 1) hspp
  by_cases hr : (n - 1) % stepsPerPage + 1 < stepsPerPage
  · have h := (Int.ediv_emod_unique hspp).2
      ⟨(show (n - 1) % stepsPerPage + 1 + stepsPerPage * ((n - 1) / stepsPerPage) = n by omega),
        by omega, hr⟩
    rw [h.1, h.2]
    have : (n - 1) % stepsPerPage + 1 > 0 := by omega
    simp [this]
  · have h := (Int.ediv_emod_unique hspp).2
      ⟨(show 0 + stepsPerPage * ((n - 1) / stepsPerPage + 1) = n by
          have : stepsPerPage * ((n - 1) / stepsPerPage + 1) =
            stepsPerPage * ((n - 1) / stepsPerPage) + stepsPerPage := by ring
          omega),
        le_refl 0, hspp⟩
    rw [h.1, h.2]
    simp

theorem pageCount_zero (stepsPerPage : Int) : pageCount stepsPerPage 0 = 0 := by
  simp [pageCount]

/-- The integer expression of `pageCount` is the ceiling of the quotient. -/
theorem pageCount_eq_ceil (stepsPerPage n : Int) (hspp : 0 < stepsPerPage) (hn : 0 ≤ n) :
    pageCount stepsPerPage n = ⌈(n : ℚ) / (stepsPerPage : ℚ)⌉ := by
  rcases eq_or_lt_of_le hn with h0 | hpos
  · subst h0
    simp [pageCount_zero]
  · rw [pageCount_eq stepsPerPage n hspp (by omega)]
    symm
    rw [Int.ceil_eq_iff]
    have hsq : (0 : ℚ) < (stepsPerPage : ℚ) := by exact_mod_cast hspp
    have h1 := Int.ediv_add_emod (n - 1) stepsPerPage
    have h2 := Int.emod_nonneg (n - 1) (by omega : stepsPerPage ≠ 0)
    have h3 := Int.emod_lt_of_pos (n - 1) hspp
    constructor
    · rw [lt_div_iff₀ hsq]
      have : ((n - 1) / stepsPerPage) * stepsPerPage < n := by
        have : ((n - 1) / stepsPerPage) * stepsPerPage =
          stepsPerPage * ((n - 1) / stepsPerPage) := by ring
        omega
      push_cast
      have h : (((((n - 1) / stepsPerPage) * stepsPerPage : Int)) : ℚ) < (n : ℚ) := by
        exact_mod_cast this
      push_cast at h
      linarith
    · rw [div_le_iff₀ hsq]
      have : n ≤ ((n - 1) / stepsPerPage + 1) * stepsPerPage := by
        have : ((n - 1) / stepsPerPage + 1) * stepsPerPage =
          stepsPerPage * ((n - 1) / stepsPerPage) + stepsPerPage := by ring
        omega
      have h : (n : ℚ) ≤ ((((n - 1) / stepsPerPage + 1) * stepsPerPage : Int) : ℚ) := by
        exact_mod_cast this
      push_cast at h ⊢
      linarith


theorem length_modifyAt {α : Type} (f : α → α) (l : List α) (i : Nat) :
    (modifyAt f l i).length = l.length := by
  induction l generalizing i with
  | nil => rfl
  | cons x xs ih =>
    cases i with
    | zero => rfl
    | succ k => simp [modifyAt, ih]

theorem getElem?_modifyAt {α : Type} (f : α → α) (l : List α) (i j : Nat) :
    (modifyAt f l i)[j]? = (l[j]?).map (fun x => if i = j then f x else x) := by
  induction l generalizing i j with
  | nil => simp [modifyAt]
  | cons x xs ih =>
    cases i with
    | zero =>
      cases j with
      | zero => simp [modifyAt]
      | succ k => simp [modifyAt]
    | succ n =>
      cases j with
      | zero => simp [modifyAt]
      | succ k => simp [modifyAt, ih]

theorem mem_modifyAt {α : Type} (f : α → α) (l : List α) (i : Nat) (x : α)
    (hx : x ∈ modifyAt f l i) : x ∈ l ∨ ∃ y ∈ l, x = f y := by
  induction l generalizing i with
  | nil => simp [modifyAt] at hx
  | cons a as ih =>
    cases i with
    | zero =>
      simp only [modifyAt, List.mem_cons] at hx
      rcases hx with h | h
      · exact Or.inr ⟨a, List.mem_cons_self _ _, h⟩
      · exact Or.inl (List.mem_cons_of_mem _ h)
    | succ k =>
      simp only [modifyAt, List.mem_cons] at hx
      rcases hx with h | h
      · exact Or.inl (h ▸ List.mem_cons_self _ _)
      · rcases ih k h with h1 | ⟨y, hy, hxy⟩
        · exact Or.inl (List.mem_cons_of_mem _ h1)
        · exact Or.inr ⟨y, List.mem_cons_of_mem _ hy, hxy⟩

theorem index_modifyAtInt {α : Type} (f : α → α) (l : List α) (i j : Int) :
    index (modifyAtInt f l i) j = (index l j).map (fun x => if i = j then f x else x) := by
  unfold index modifyAtInt
  by_cases hj : 0 ≤ j
  · by_cases hi : 0 ≤ i
    · simp only [hj, hi, if_true, List.get?_eq_getElem?, getElem?_modifyAt]
      have : (i.toNat = j.toNat) ↔ i = j := by omega
      simp only [this]
    · have hne : ¬ i = j := by omega
      simp [hj, hi, hne]
  · simp [hj]

theorem mem_modifyAtInt {α : Type} (f : α → α) (l : List α) (i : Int) (x : α)
    (hx : x ∈ modifyAtInt f l i) : x ∈ l ∨ ∃ y ∈ l, x = f y := by
  unfold modifyAtInt at hx
  split at hx
  · exact mem_modifyAt f l _ x hx
  · exact Or.inl hx

theorem length_modifyAtInt {α : Type} (f : α → α) (l : List α) (i : Int) :
    (modifyAtInt f l i).length = l.length := by
  unfold modifyAtInt
  split
  · exact length_modifyAt f l _
  · rfl

theorem index_append {α : Type} (l : List α) (x : α) (i : Int) (t : α)
    (h : index l i = some t) : index (l ++ [x]) i = some t := by
  unfold index at h ⊢
  split at h
  · next hi =>
    simp only [hi, if_true]
    have hlt : i.toNat < l.length := by
      rcases Nat.lt_or_ge i.toNat l.length with h1 | h1
      · exact h1
      · rw [List.get?_eq_none.2 h1] at h
        exact absurd h (by simp)
    rw [List.get?_eq_getElem?] at h ⊢
    rw [List.getElem?_append_left hlt]
    exact h
  · exact absurd h (by simp)

theorem index_mem {α : Type} (l : List α) (i : Int) (t : α) (h : index l i = some t) :
    t ∈ l := by
  unfold index at h
  split at h
  · exact List.get?_mem h
  · exact absurd h (by simp)

theorem pageCursorValid_iff (stepsPerPage : Int) (m : mainModel) (hspp : 0 < stepsPerPage) :
    pageCursorValid stepsPerPage m = true ↔
      ∃ t, index m.seq.tracks m.activeTrack = some t ∧ 0 ≤ m.activeTrackPage ∧
        m.activeTrackPage < pageCount stepsPerPage (len t.steps) := by
  have hne : stepsPerPage ≠ 0 := by omega
  unfold pageCursorValid trackPagesNb Sequencer.Tracks
  cases h : index m.seq.tracks m.activeTrack with
  | none => simp
  | some t => simp [hne]


theorem pageCursorValid_iff_validCursor (stepsPerPage : Int) (m : mainModel)
    (hspp : 0 < stepsPerPage) :
    pageCursorValid stepsPerPage m = true ↔
      validCursor stepsPerPage m.seq.tracks m.activeTrack m.activeTrackPage :=
  pageCursorValid_iff stepsPerPage m hspp

theorem pageCount_mono_succ (stepsPerPage n : Int) (hspp : 0 < stepsPerPage) (hn : 1 ≤ n) :
    pageCount stepsPerPage n ≤ pageCount stepsPerPage (n + 1) := by
  rw [pageCount_eq _ _ hspp hn, pageCount_eq _ _ hspp (by omega)]
  have : (n - 1) / stepsPerPage ≤ (n + 1 - 1) / stepsPerPage :=
    Int.ediv_le_ediv hspp (by omega)
  omega

theorem validCursor_steps_pos (stepsPerPage : Int) (t : Track) (page : Int)
    (h0 : 0 ≤ page) (h1 : page < pageCount stepsPerPage (len t.steps)) : 1 ≤ len t.steps := by
  by_contra hc
  have hz : len t.steps = 0 := by
    unfold len at hc ⊢
    omega
  rw [hz, pageCount_zero] at h1
  omega

theorem validCursor_modify_same (stepsPerPage : Int) (f : Track → Track) (l : List Track)
    (i a p : Int) (hf : ∀ t, len (f t).steps = len t.steps)
    (h : validCursor stepsPerPage l a p) :
    validCursor stepsPerPage (modifyAtInt f l i) a p := by
  obtain ⟨t, ht, h0, h1⟩ := h
  refine ⟨if i = a then f t else t, ?_, h0, ?_⟩
  · rw [index_modifyAtInt, ht]; rfl
  · split
    · rw [hf]; exact h1
    · exact h1

theorem validCursor_append (stepsPerPage : Int) (l : List Track) (x : Track) (a p : Int)
    (h : validCursor stepsPerPage l a p) : validCursor stepsPerPage (l ++ [x]) a p := by
  obtain ⟨t, ht, h0, h1⟩ := h
  exact ⟨t, index_append l x a t ht, h0, h1⟩

theorem validCursor_addStep (stepsPerPage : Int) (l : List Track) (i a p : Int)
    (hspp : 0 < stepsPerPage) (h : validCursor stepsPerPage l a p) :
    validCursor stepsPerPage
      (modifyAtInt (fun t => { t with steps := t.steps ++ [newStep] }) l i) a p := by
  obtain ⟨t, ht, h0, h1⟩ := h
  have hpos := validCursor_steps_pos stepsPerPage t p h0 h1
  refine ⟨if i = a then { t with steps := t.steps ++ [newStep] } else t, ?_, h0, ?_⟩
  · rw [index_modifyAtInt, ht]; rfl
  · split
    · have hl : len (t.steps ++ [newStep]) = len t.steps + 1 := by
        simp [len]
      simp only [hl]
      exact lt_of_lt_of_le h1 (pageCount_mono_succ _ _ hspp hpos)
    · exact h1

theorem validCursor_removeStep (stepsPerPage : Int) (l : List Track) (a p : Int) (t : Track)
    (hspp : 0 < stepsPerPage) (ht : index l a = some t)
    (h0 : 0 ≤ p) (h1 : p < pageCount stepsPerPage (len t.steps)) :
    validCursor stepsPerPage
      (modifyAtInt
        (fun t => { t with steps := if t.steps.length ≤ 1 then t.steps else t.steps.dropLast })
        l a) a
      (if p > 0 ∧ Int.tmod (len t.steps - 1) stepsPerPage = 0 then p - 1 else p) := by
  have hpos := validCursor_steps_pos stepsPerPage t p h0 h1
  refine ⟨{ t with steps := if t.steps.length ≤ 1 then t.steps else t.steps.dropLast }, ?_, ?_, ?_⟩
  · rw [index_modifyAtInt, ht]; simp
  · split <;> omega
  · rw [Int.tmod_eq_emod (by omega) (by omega)]
    rw [pageCount_eq _ _ hspp hpos] at h1
    by_cases hle : t.steps.length ≤ 1
    · have hlen : len t.steps = 1 := by
        unfold len at hpos ⊢
        omega
      simp only [hle, if_true]
      rw [pageCount_eq _ _ hspp hpos]
      rw [hlen] at h1 ⊢
      simp only [sub_self, Int.zero_ediv, zero_add, Int.zero_emod, and_true] at h1 ⊢
      split <;> omega
    · have hlen : len t.steps.dropLast = len t.steps - 1 := by
        unfold len
        rw [List.length_dropLast]
        omega
      have h2 : 2 ≤ len t.steps := by
        unfold len
        omega
      simp only [hle, if_false, hlen]
      rw [pageCount_eq _ _ hspp (by omega)]
      have e1 := Int.ediv_add_emod (len t.steps - 1) stepsPerPage
      have e2 := Int.emod_nonneg (len t.steps - 1) (by omega : stepsPerPage ≠ 0)
      have e3 := Int.emod_lt_of_pos (len t.steps - 1) hspp
      by_cases hr : (len t.steps - 1) % stepsPerPage = 0
      · have hq : (len t.steps - 1 - 1) / stepsPerPage = (len t.steps - 1) / stepsPerPage - 1 := by
          have h := (Int.ediv_emod_unique hspp).2
            ⟨(show (stepsPerPage - 1) + stepsPerPage * ((len t.steps - 1) / stepsPerPage - 1) =
                len t.steps - 1 - 1 by
                have : stepsPerPage * ((len t.steps - 1) / stepsPerPage - 1) =
                  stepsPerPage * ((len t.steps - 1) / stepsPerPage) - stepsPerPage := by ring
                omega),
              by omega, by omega⟩
          exact h.1
        have hq1 : 1 ≤ (len t.steps - 1) / stepsPerPage := by
          by_contra hc
          have hz : (len t.steps - 1) / stepsPerPage ≤ 0 := by omega
          have : stepsPerPage * ((len t.steps - 1) / stepsPerPage) ≤ 0 :=
            Int.mul_nonpos_of_nonneg_of_nonpos (by omega) hz
          omega
        rw [hq]
        simp only [hr, and_true]
        split <;> omega
      · have hq : (len t.steps - 1 - 1) / stepsPerPage = (len t.steps - 1) / stepsPerPage := by
          have h := (Int.ediv_emod_unique hspp).2
            ⟨(show ((len t.steps - 1) % stepsPerPage - 1) +
                stepsPerPage * ((len t.steps - 1) / stepsPerPage) = len t.steps - 1 - 1 by omega),
              by omega, by omega⟩
          exact h.1
        rw [hq]
        simp only [hr, and_false, if_false]
        exact h1


theorem pageUp_range (pageNb p : Int) (h0 : 0 ≤ p) (hp : p < pageNb) :
    0 ≤ pageUp pageNb p ∧ pageUp pageNb p < pageNb := by
  unfold pageUp
  rw [Int.tmod_eq_emod (by omega) (by omega)]
  exact ⟨Int.emod_nonneg _ (by omega), Int.emod_lt_of_pos _ (by omega)⟩

theorem pageDown_range (pageNb p : Int) (h0 : 0 ≤ p) (hp : p < pageNb) :
    0 ≤ pageDown pageNb p ∧ pageDown pageNb p < pageNb := by
  unfold pageDown
  split <;> omega

theorem tracksNonEmpty_modify (f : Track → Track) (l : List Track) (i : Int)
    (hf : ∀ t, 1 ≤ t.steps.length → 1 ≤ (f t).steps.length)
    (h : ∀ t ∈ l, 1 ≤ t.steps.length) :
    ∀ t ∈ modifyAtInt f l i, 1 ≤ t.steps.length := by
  intro t ht
  rcases mem_modifyAtInt f l i t ht with h1 | ⟨y, hy, rfl⟩
  · exact h t h1
  · exact hf y (h y hy)

/-- The page cursor invariant and the engine invariant (every track has a step) are
preserved by every message that `Update` handles without failing, except the two handlers
that change the active track in trackMode: the track selection and the track removal. -/
theorem pageCursorValid_preserved (stepsPerPage : Int) (rk : rowKeys) (m m1 : mainModel)
    (msg : Msg) (c : Cmd) (hspp : 0 < stepsPerPage) (hne : tracksNonEmpty m.seq)
    (hinv : pageCursorValid stepsPerPage m = true)
    (hU : Update stepsPerPage rk m msg = some (m1, c))
    (hsafe : ∀ key, msg = Msg.KeyMsg key → m.mode = mode.trackMode →
      matchCase m.keymap rk key ≠ some keyCase.Steps ∧
      matchCase m.keymap rk key ≠ some keyCase.Remove) :
    pageCursorValid stepsPerPage m1 = true ∧ tracksNonEmpty m1.seq := by
  rw [pageCursorValid_iff_validCursor _ _ hspp] at hinv ⊢
  have hspp0 : stepsPerPage ≠ 0 := by omega
  unfold tracksNonEmpty at hne ⊢
  cases msg with
  | WindowSizeMsg w h =>
    simp only [Update, Option.some.injEq, Prod.mk.injEq] at hU
    obtain ⟨rfl, -⟩ := hU
    exact ⟨hinv, hne⟩
  | tickMsg =>
    simp only [Update, Option.some.injEq, Prod.mk.injEq] at hU
    obtain ⟨rfl, -⟩ := hU
    exact ⟨hinv, hne⟩
  | other =>
    simp only [Update, Option.some.injEq, Prod.mk.injEq] at hU
    obtain ⟨rfl, -⟩ := hU
    exact ⟨hinv, hne⟩
  | KeyMsg key =>
    cases hk : matchCase m.keymap rk key with
    | none =>
      simp only [Update, hk, Option.some.injEq, Prod.mk.injEq] at hU
      obtain ⟨rfl, -⟩ := hU
      exact ⟨hinv, hne⟩
    | some kc =>
      cases kc with
      | TogglePlay =>
        simp only [Update, hk, Option.some.injEq, Prod.mk.injEq] at hU
        obtain ⟨rfl, -⟩ := hU
        exact ⟨hinv, hne⟩
      | Mode =>
        simp only [Update, hk, Option.some.injEq, Prod.mk.injEq] at hU
        obtain ⟨rfl, -⟩ := hU
        split <;> exact ⟨hinv, hne⟩
      | Add =>
        simp only [Update, hk, Option.some.injEq, Prod.mk.injEq] at hU
        obtain ⟨rfl, -⟩ := hU
        unfold addPress
        cases hm : m.mode with
        | trackMode =>
          refine ⟨validCursor_append _ _ _ _ _ hinv, ?_⟩
          intro t ht
          simp only [Sequencer.AddTrack, List.mem_append, List.mem_singleton] at ht
          rcases ht with h1 | rfl
          · exact hne t h1
          · decide
        | recMode =>
          refine ⟨validCursor_addStep _ _ _ _ _ hspp hinv, ?_⟩
          exact tracksNonEmpty_modify _ _ _ (fun t ht => by simp) hne
      | Remove =>
        cases hm : m.mode with
        | trackMode => exact absurd hk (hsafe key rfl hm).2
        | recMode =>
          obtain ⟨t, ht, h0, h1⟩ := hinv
          have ht1 : index m.seq.Tracks m.activeTrack = some t := ht
          simp only [Update, hk, removePress, hm, ht1, hspp0, if_false, Option.map_some',
            Option.some.injEq, Prod.mk.injEq] at hU
          obtain ⟨rfl, -⟩ := hU
          constructor
          · have hv := validCursor_removeStep stepsPerPage m.seq.tracks m.activeTrack
              m.activeTrackPage t hspp ht h0 h1
            unfold removeStepCursor
            split
            · next hc =>
              simp only [hc, and_self, if_true] at hv
              exact hv
            · next hc =>
              simp only [hc, if_false] at hv
              exact hv
          · have hs : (removeStepCursor (Int.tmod (len t.steps - 1) stepsPerPage) m).seq = m.seq := by
              unfold removeStepCursor
              split <;> rfl
            simp only [hs]
            exact tracksNonEmpty_modify _ _ _
              (fun t ht => by
                simp only
                split
                · exact ht
                · rw [List.length_dropLast]; omega) hne
      | Steps =>
        cases hm : m.mode with
        | trackMode => exact absurd hk (hsafe key rfl hm).1
        | recMode =>
          simp only [Update, hk, stepPress, hm, Option.some.injEq, Prod.mk.injEq] at hU
          obtain ⟨rfl, -⟩ := hU
          refine ⟨validCursor_modify_same _ _ _ _ _ _ (fun t => ?_) hinv, ?_⟩
          · simp [len, length_modifyAtInt]
          · exact tracksNonEmpty_modify _ _ _
              (fun t ht => by simpa [length_modifyAtInt] using ht) hne
      | Tracks =>
        simp only [Update, hk, Option.some.injEq, Prod.mk.injEq] at hU
        obtain ⟨rfl, -⟩ := hU
        refine ⟨validCursor_modify_same _ _ _ _ _ _ (fun t => rfl) hinv, ?_⟩
        exact tracksNonEmpty_modify _ _ _ (fun t ht => ht) hne
      | TrackPageUp =>
        obtain ⟨t, ht, h0, h1⟩ := hinv
        have ht1 : index m.seq.Tracks m.activeTrack = some t := ht
        have hpn : pageCount stepsPerPage (len t.steps) ≠ 0 := by omega
        simp only [Update, hk, trackPagesNb, ht1, hspp0, if_false, hpn, Option.some.injEq,
          Prod.mk.injEq] at hU
        obtain ⟨rfl, -⟩ := hU
        have hr := pageUp_range _ _ h0 h1
        exact ⟨⟨t, ht, hr.1, hr.2⟩, hne⟩
      | TrackPageDown =>
        obtain ⟨t, ht, h0, h1⟩ := hinv
        have ht1 : index m.seq.Tracks m.activeTrack = some t := ht
        simp only [Update, hk, trackPagesNb, ht1, hspp0, if_false, Option.some.injEq,
          Prod.mk.injEq] at hU
        obtain ⟨rfl, -⟩ := hU
        have hr := pageDown_range _ _ h0 h1
        exact ⟨⟨t, ht, hr.1, hr.2⟩, hne⟩
      | TempoUp =>
        simp only [Update, hk, Option.some.injEq, Prod.mk.injEq] at hU
        obtain ⟨rfl, -⟩ := hU
        exact ⟨hinv, hne⟩
      | TempoDown =>
        simp only [Update, hk, Option.some.injEq, Prod.mk.injEq] at hU
        obtain ⟨rfl, -⟩ := hU
        exact ⟨hinv, hne⟩
      | TempoFineUp =>
        simp only [Update, hk, Option.some.injEq, Prod.mk.injEq] at hU
        obtain ⟨rfl, -⟩ := hU
        exact ⟨hinv, hne⟩
      | TempoFineDown =>
        simp only [Update, hk, Option.some.injEq, Prod.mk.injEq] at hU
        obtain ⟨rfl, -⟩ := hU
        exact ⟨hinv, hne⟩
      | Params =>
        simp only [Update, hk, Option.some.injEq, Prod.mk.injEq] at hU
        obtain ⟨rfl, -⟩ := hU
        exact ⟨hinv, hne⟩
      | ParamValueUp =>
        simp only [Update, hk] at hU
        cases hp : index m.parameters m.activeParam with
        | none => simp [hp] at hU
        | some p =>
          simp only [hp, Option.some.injEq, Prod.mk.injEq] at hU
          obtain ⟨rfl, -⟩ := hU
          exact ⟨hinv, hne⟩
      | ParamValueDown =>
        simp only [Update, hk] at hU
        cases hp : index m.parameters m.activeParam with
        | none => simp [hp] at hU
        | some p =>
          simp only [hp, Option.some.injEq, Prod.mk.injEq] at hU
          obtain ⟨rfl, -⟩ := hU
          exact ⟨hinv, hne⟩
      | Help =>
        simp only [Update, hk, Option.some.injEq, Prod.mk.injEq] at hU
        obtain ⟨rfl, -⟩ := hU
        exact ⟨hinv, hne⟩
      | Quit =>
        simp only [Update, hk, Option.some.injEq, Prod.mk.injEq] at hU
        obtain ⟨rfl, -⟩ := hU
        by_cases hp : m.seq.IsPlaying = true
        · simp only [hp, if_true]
          exact ⟨hinv, hne⟩
        · simp only [hp]
          exact ⟨hinv, hne⟩

end Sektron
